import Mathlib

/-!
Verification of the quantum-network optimal-routing program (src/main/app.py).

The embedding follows the Python source:
* `QuantumNetwork` mirrors the parameter class; the field `exp` models
  `np.exp` as an abstract function on rationals (theorems that need facts
  about the exponential take them as hypotheses: positivity, monotonicity,
  and being bounded by 1 on nonpositive arguments — all true of the real
  exponential).
* Python floats are modelled as rationals.
* `link_entanglement_rate`, `end_to_end_rate`, `enumerate_paths`,
  `find_optimal_path` are translated from the source.  `end_to_end_rate`
  in the source is a recursion whose termination is part of what is being
  checked, so it is embedded with an explicit fuel argument: a `none`
  result means the Python computation did not produce a value within the
  given recursion depth (a crash is also `none`); a `some` result is the
  value the Python code returns.
* The distance dictionary-of-dictionaries is modelled as a total function
  `V → V → Option ℚ`; `none` is an absent edge (`distances[src].get(n)`
  returning `None`).
-/

/-- Parameter bundle mirroring the Python class `QuantumNetwork`; the field
`exp` models `np.exp`. -/
structure QuantumNetwork where
  p_ht : ℚ
  v_h : ℚ
  v_t : ℚ
  v_o : ℚ
  v_a : ℚ
  L0 : ℚ
  c_f : ℚ
  tau_p : ℚ
  tau_h : ℚ
  tau_t : ℚ
  tau_d : ℚ
  tau_o : ℚ
  tau_a : ℚ
  T_ch : ℚ
  exp : ℚ → ℚ

/-- Default parameter values from the Python constructor (exact rationals). -/
def defaultNetwork (expf : ℚ → ℚ) : QuantumNetwork :=
  { p_ht := 53/100
    v_h := 4/5
    v_t := 4/5
    v_o := 39/100
    v_a := 39/100
    L0 := 22000
    c_f := 200000000
    tau_p := 59/10000000
    tau_h := 1/50000
    tau_t := 1/100000
    tau_d := 1/10000
    tau_o := 1/100000
    tau_a := 1/100000
    T_ch := 1/100
    exp := expf }

/-- Success probability of link entanglement, from the source:
p_ij = 0.5 * v_o * (p_ht * v_h * v_t)**2 * exp(-d_ij / L0). -/
def p_ij (net : QuantumNetwork) (d : ℚ) : ℚ :=
  1/2 * net.v_o * (net.p_ht * net.v_h * net.v_t)^2 * net.exp (-d / net.L0)

/-- Round-trip signal time, from the source:
tau_ij = tau_t + d_ij/(2*c_f) + tau_o + d_ij/(2*c_f). -/
def tau_ij (net : QuantumNetwork) (d : ℚ) : ℚ :=
  net.tau_t + d / (2 * net.c_f) + net.tau_o + d / (2 * net.c_f)

/-- Duration of a successful attempt: T_ij_s = tau_p + max(tau_h, tau_ij). -/
def T_ij_s (net : QuantumNetwork) (d : ℚ) : ℚ :=
  net.tau_p + max net.tau_h (tau_ij net d)

/-- Duration of a failed attempt: T_ij_f = tau_p + max(tau_h, tau_ij, tau_d). -/
def T_ij_f (net : QuantumNetwork) (d : ℚ) : ℚ :=
  net.tau_p + max net.tau_h (max (tau_ij net d) net.tau_d)

/-- Average time per successful generation:
T_ij = ((1 - p_ij) * T_ij_f + p_ij * T_ij_s) / p_ij. -/
def T_ij (net : QuantumNetwork) (d : ℚ) : ℚ :=
  ((1 - p_ij net d) * T_ij_f net d + p_ij net d * T_ij_s net d) / p_ij net d

/-- Link entanglement rate, from the source: 0 when T_ch < tau_ij, else 1/T_ij. -/
def link_entanglement_rate (net : QuantumNetwork) (d : ℚ) : ℚ :=
  if net.T_ch < tau_ij net d then 0 else 1 / T_ij net d

/-- End-to-end rate, translated line by line from `end_to_end_rate` in the
source, with a fuel argument making the (non-)termination of the Python
recursion observable.  The source's branch condition is `len(path) == 1`
(under which the access `path[1]` is out of range, modelled as `none`);
otherwise it splits at `k = len(path) // 2` into `path[:k+1]` and `path[k:]`. -/
def end_to_end_rate {V : Type} (net : QuantumNetwork) (dist : V → V → Option ℚ) :
    Nat → List V → Option ℚ
  | 0, _ => none
  | fuel + 1, path =>
    if path.length = 1 then
      match path.get? 0, path.get? 1 with
      | some a, some b => (dist a b).map (fun d => link_entanglement_rate net d)
      | _, _ => none
    else
      let k := path.length / 2
      match end_to_end_rate net dist fuel (path.take (k + 1)) with
      | none => none
      | some rl =>
        match end_to_end_rate net dist fuel (path.drop k) with
        | none => none
        | some rr =>
          if rl = 0 ∨ rr = 0 then some 0
          else
            let tl := 1 / rl
            let tr := 1 / rr
            let tswap := (max tl tr + net.tau_a) / net.v_a
            let tauTotal := max tl tr + net.tau_a
            if net.T_ch < tauTotal then some 0 else some (1 / tswap)

/-- Depth-first path enumeration, translated from `enumerate_paths` in the
source.  The visited set is a list; the source adds `src` to `visited` before
anything else and recurses with a copy, which is exactly the pure
`src :: visited` here.  A neighbor is explored when it is in `nodes`, not yet
visited, and `distances[src].get(neighbor)` is not `None`. -/
def enumerate_paths {V : Type} [DecidableEq V] (nodes : List V)
    (dist : V → V → Option ℚ) (src dst : V) (visited : List V) :
    List (List V) :=
  if src = dst then
    [[dst]]
  else
    ((nodes.filter fun n =>
        decide (n ∉ src :: visited) && (dist src n).isSome).attach.map
      (fun x =>
        (enumerate_paths nodes dist x.1 dst (src :: visited)).map
          (fun sp => src :: sp))).flatten
termination_by (nodes.toFinset \ insert src visited.toFinset).card
decreasing_by
  obtain ⟨n, hn⟩ := x
  simp only [List.mem_filter, Bool.and_eq_true, decide_eq_true_eq,
    List.mem_cons, not_or] at hn
  rw [List.toFinset_cons, Finset.sdiff_insert]
  apply Finset.card_erase_lt_of_mem
  simp only [Finset.mem_sdiff, List.mem_toFinset, Finset.mem_insert,
    List.mem_toFinset]
  exact ⟨hn.1, by tauto⟩

/-- Ordered pairs produced by Python's `itertools.combinations(nodes, 2)`. -/
def pairs {V : Type} : List V → List (V × V)
  | [] => []
  | x :: xs => (xs.map fun y => (x, y)) ++ pairs xs

/-- The accumulation loop of `find_optimal_path`: fold over the candidate
paths keeping the best (path, rate) seen, starting from `(None, 0.0)`;
`rate > best_rate` updates the best.  A `none` from `end_to_end_rate`
(crash / non-termination) aborts the whole computation with `none`. -/
def best_loop {V : Type} (net : QuantumNetwork) (dist : V → V → Option ℚ)
    (fuel : Nat) : List (List V) → Option (List V) → ℚ →
    Option (Option (List V) × ℚ)
  | [], bp, br => some (bp, br)
  | p :: rest, bp, br =>
    match end_to_end_rate net dist fuel p with
    | none => none
    | some r =>
      if br < r then best_loop net dist fuel rest (some p) r
      else best_loop net dist fuel rest bp br

/-- Optimal-path search, translated from `find_optimal_path` in the source:
gather all simple paths over all pairs from `combinations(nodes, 2)`, then
scan them for the highest rate. -/
def find_optimal_path {V : Type} [DecidableEq V] (net : QuantumNetwork)
    (nodes : List V) (dist : V → V → Option ℚ) (fuel : Nat) :
    Option (Option (List V) × ℚ) :=
  best_loop net dist fuel
    ((pairs nodes).flatMap fun pr => enumerate_paths nodes dist pr.1 pr.2 [])
    none 0

/-- Node identifiers of the example topology (v1, v2, v3, vj as 1, 2, 3, 4). -/
def exampleNodes : List ℕ := [1, 2, 3, 4]

/-- Distance graph of the example topology from the source driver:
v1—v2 5 km, v2—v3 5 km, v2—vj 10 km, v3—vj 5 km (metres). -/
def exampleDistances : ℕ → ℕ → Option ℚ := fun a b =>
  if a = 1 ∧ b = 2 then some 5000
  else if a = 2 ∧ b = 1 then some 5000
  else if a = 2 ∧ b = 3 then some 5000
  else if a = 2 ∧ b = 4 then some 10000
  else if a = 3 ∧ b = 2 then some 5000
  else if a = 3 ∧ b = 4 then some 5000
  else if a = 4 ∧ b = 2 then some 10000
  else if a = 4 ∧ b = 3 then some 5000
  else none

lemma e2e_none_of_two_le {V : Type} (net : QuantumNetwork)
    (dist : V → V → Option ℚ) :
    ∀ (fuel : Nat) (path : List V), 2 ≤ path.length →
      end_to_end_rate net dist fuel path = none
  | 0, _, _ => rfl
  | fuel + 1, path, h => by
    have hlen : ¬ path.length = 1 := by omega
    have hk : 1 ≤ path.length / 2 := by omega
    have hkle : path.length / 2 + 1 ≤ path.length := by omega
    have htake : 2 ≤ (path.take (path.length / 2 + 1)).length := by
      rw [List.length_take]; omega
    have hrec := e2e_none_of_two_le net dist fuel
      (path.take (path.length / 2 + 1)) htake
    simp only [end_to_end_rate, hlen, if_false]
    rw [hrec]

/-- C1: the claim says a two-node path whose edge exists evaluates to the
link rate of that edge.  In the source the base case tests
`len(path) == 1` (not 2), so a two-node path enters the recursive branch,
whose left sub-path `path[:2]` is the whole path again: the recursion never
produces a value.  This theorem exhibits that on the example edge v1—v2
(distance 5000 m, present in the topology) the computation yields `none`
at every recursion depth. -/
theorem C1_two_node_path_never_returns :
    ∀ (fuel : Nat) (expf : ℚ → ℚ),
      exampleDistances 1 2 = some 5000 ∧
      end_to_end_rate (defaultNetwork expf) exampleDistances fuel [1, 2] =
        none := by
  intro fuel expf
  exact ⟨rfl, e2e_none_of_two_le _ _ fuel [1, 2] (by decide)⟩

/-- C2: the claim says the midpoint-split recursion terminates on every
path of length at least 2 because each recursive call is strictly shorter.
In the source the left sub-path of a 2-node path is the whole path
(`path[:k+1]` with `k = 1`), so the recursion never terminates: for every
path of length at least 2 and every recursion depth the computation is
still unfinished (`none`). -/
theorem C2_recursion_never_terminates {V : Type} (net : QuantumNetwork)
    (dist : V → V → Option ℚ) (fuel : Nat) (path : List V)
    (h : 2 ≤ path.length) :
    end_to_end_rate net dist fuel path = none :=
  e2e_none_of_two_le net dist fuel path h

/-- Witness for C2 at a concrete input: the example path v1-v2-vj. -/
theorem C2_recursion_never_terminates_witness :
    2 ≤ ([1, 2, 4] : List ℕ).length ∧
      end_to_end_rate (defaultNetwork (fun _ => 1)) exampleDistances 9
        [1, 2, 4] = none :=
  ⟨by decide,
    C2_recursion_never_terminates (defaultNetwork (fun _ => 1))
      exampleDistances 9 [1, 2, 4] (by decide)⟩

/-- C3: the claim describes the swap combination for paths of length at
least 3 once both halves have rates.  In the source the halves themselves
never produce a rate (their recursion bottoms out in the diverging 2-node
case), so the combination step is unreachable: on the example path
v1-v2-vj (all edges present) the computation yields `none` at every
recursion depth. -/
theorem C3_three_node_path_never_returns :
    ∀ (fuel : Nat) (expf : ℚ → ℚ),
      end_to_end_rate (defaultNetwork expf) exampleDistances fuel [1, 2, 4] =
        none := by
  intro fuel expf
  exact e2e_none_of_two_le _ _ fuel [1, 2, 4] (by decide)

/-- C4 counterexample: with the default parameters and distance 22000 m,
the round-trip time computed by the source differs from the claimed
formula tau_t + d/c_f + tau_o + d/c_f (the source divides each travel
term by 2*c_f, not c_f). -/
theorem C4_counterexample :
    tau_ij (defaultNetwork (fun _ => 1)) 22000 ≠
      (defaultNetwork (fun _ => 1)).tau_t +
        22000 / (defaultNetwork (fun _ => 1)).c_f +
        (defaultNetwork (fun _ => 1)).tau_o +
        22000 / (defaultNetwork (fun _ => 1)).c_f := by
  norm_num [tau_ij, defaultNetwork]

/-- C4 amended: the source computes
tau = tau_t + d/(2*c_f) + tau_o + d/(2*c_f); each direction costs
d/(2*c_f), and the total photon travel time is d/c_f paid once overall. -/
theorem C4_amended_roundtrip_time (net : QuantumNetwork) (d : ℚ)
    (hc : net.c_f ≠ 0) :
    tau_ij net d =
        net.tau_t + d / (2 * net.c_f) + net.tau_o + d / (2 * net.c_f) ∧
      tau_ij net d = net.tau_t + net.tau_o + d / net.c_f := by
  refine ⟨rfl, ?_⟩
  unfold tau_ij
  field_simp
  ring

/-- Witness for C4 amended at the default parameters and d = 22000. -/
theorem C4_amended_roundtrip_time_witness :
    (defaultNetwork (fun _ => 1)).c_f ≠ 0 ∧
      (tau_ij (defaultNetwork (fun _ => 1)) 22000 =
          (defaultNetwork (fun _ => 1)).tau_t +
            22000 / (2 * (defaultNetwork (fun _ => 1)).c_f) +
            (defaultNetwork (fun _ => 1)).tau_o +
            22000 / (2 * (defaultNetwork (fun _ => 1)).c_f) ∧
        tau_ij (defaultNetwork (fun _ => 1)) 22000 =
          (defaultNetwork (fun _ => 1)).tau_t +
            (defaultNetwork (fun _ => 1)).tau_o +
            22000 / (defaultNetwork (fun _ => 1)).c_f) :=
  ⟨by norm_num [defaultNetwork],
    C4_amended_roundtrip_time (defaultNetwork (fun _ => 1)) 22000
      (by norm_num [defaultNetwork])⟩

lemma T_ij_s_pos (net : QuantumNetwork) (d : ℚ) (htp : 0 < net.tau_p)
    (hth : 0 ≤ net.tau_h) : 0 < T_ij_s net d := by
  have := le_max_left net.tau_h (tau_ij net d)
  unfold T_ij_s
  linarith

lemma T_ij_f_pos (net : QuantumNetwork) (d : ℚ) (htp : 0 < net.tau_p)
    (hth : 0 ≤ net.tau_h) : 0 < T_ij_f net d := by
  have := le_max_left net.tau_h (max (tau_ij net d) net.tau_d)
  unfold T_ij_f
  linarith

lemma T_ij_pos (net : QuantumNetwork) (d : ℚ) (htp : 0 < net.tau_p)
    (hth : 0 ≤ net.tau_h) (hp : 0 < p_ij net d) (hp1 : p_ij net d ≤ 1) :
    0 < T_ij net d := by
  have hs := T_ij_s_pos net d htp hth
  have hf := T_ij_f_pos net d htp hth
  have hnum : 0 < (1 - p_ij net d) * T_ij_f net d + p_ij net d * T_ij_s net d := by
    have h1 : 0 ≤ (1 - p_ij net d) * T_ij_f net d :=
      mul_nonneg (by linarith) hf.le
    have h2 : 0 < p_ij net d * T_ij_s net d := mul_pos hp hs
    linarith
  exact div_pos hnum hp

/-- C5: when the success probability is positive (and at most 1, which holds
for every physically valid parameter set), the link rate is 0 exactly when
the coherence time is strictly below the round-trip time — the cutoff is
exclusive, equality is feasible — and otherwise the rate is 1/T_ij with
T_ij = ((1-p)*T_fail + p*T_success)/p. -/
theorem C5_cutoff_exclusive (net : QuantumNetwork) (d : ℚ) (h0 : 0 ≤ d)
    (htp : 0 < net.tau_p) (hth : 0 ≤ net.tau_h)
    (hp : 0 < p_ij net d) (hp1 : p_ij net d ≤ 1) :
    (link_entanglement_rate net d = 0 ↔ net.T_ch < tau_ij net d) ∧
      (¬ net.T_ch < tau_ij net d →
        link_entanglement_rate net d = 1 / T_ij net d) := by
  have hT := T_ij_pos net d htp hth hp hp1
  constructor
  · constructor
    · intro hzero
      by_contra hcut
      rw [link_entanglement_rate, if_neg hcut] at hzero
      have : (0:ℚ) < 1 / T_ij net d := by positivity
      linarith
    · intro hcut
      rw [link_entanglement_rate, if_pos hcut]
  · intro hcut
    rw [link_entanglement_rate, if_neg hcut]

/-- Witness for C5 at the default parameters, exponential modelled as the
constant 1, and distance 0. -/
theorem C5_cutoff_exclusive_witness :
    0 < p_ij (defaultNetwork (fun _ => 1)) 0 ∧
      ((link_entanglement_rate (defaultNetwork (fun _ => 1)) 0 = 0 ↔
          (defaultNetwork (fun _ => 1)).T_ch <
            tau_ij (defaultNetwork (fun _ => 1)) 0) ∧
        (¬ (defaultNetwork (fun _ => 1)).T_ch <
            tau_ij (defaultNetwork (fun _ => 1)) 0 →
          link_entanglement_rate (defaultNetwork (fun _ => 1)) 0 =
            1 / T_ij (defaultNetwork (fun _ => 1)) 0)) :=
  ⟨by norm_num [p_ij, defaultNetwork],
    C5_cutoff_exclusive (defaultNetwork (fun _ => 1)) 0 le_rfl
      (by norm_num [defaultNetwork]) (by norm_num [defaultNetwork])
      (by norm_num [p_ij, defaultNetwork])
      (by norm_num [p_ij, defaultNetwork])⟩

/-- C9: with the program's default parameters fixed and the exponential
modelled by any positive monotone function bounded by 1 on nonpositive
arguments (as the real exponential is), the link rate is monotonically
non-increasing in the distance: d1 < d2 implies rate(d2) ≤ rate(d1). -/
theorem C9_rate_antitone_in_distance (expf : ℚ → ℚ)
    (hpos : ∀ x, 0 < expf x) (hmono : Monotone expf)
    (hle1 : ∀ x, x ≤ 0 → expf x ≤ 1)
    (d1 d2 : ℚ) (h1 : 0 ≤ d1) (h12 : d1 < d2) :
    link_entanglement_rate (defaultNetwork expf) d2 ≤
      link_entanglement_rate (defaultNetwork expf) d1 := by
  set net := defaultNetwork expf with hnet
  have hd12 : d1 ≤ d2 := h12.le
  have h2 : (0:ℚ) ≤ d2 := le_trans h1 hd12
  have hcf : net.c_f = 200000000 := rfl
  have htp : (0:ℚ) < net.tau_p := by norm_num [hnet, defaultNetwork]
  have hth : (0:ℚ) ≤ net.tau_h := by norm_num [hnet, defaultNetwork]
  have pval : ∀ d : ℚ, p_ij net d = 219102/9765625 * expf (-d / 22000) := by
    intro d
    show (1:ℚ)/2 * (39/100) * ((53/100) * (4/5) * (4/5))^2 * expf (-d / 22000) = _
    norm_num
  have hppos : ∀ d : ℚ, 0 < p_ij net d := by
    intro d
    rw [pval d]
    exact mul_pos (by norm_num) (hpos _)
  have hple1 : ∀ d : ℚ, 0 ≤ d → p_ij net d ≤ 1 := by
    intro d hd
    rw [pval d]
    have harg : -d / 22000 ≤ 0 := by
      apply div_nonpos_of_nonpos_of_nonneg <;> linarith
    have he := hle1 _ harg
    nlinarith [(hpos (-d / 22000)).le]
  have htau : tau_ij net d1 ≤ tau_ij net d2 := by
    unfold tau_ij
    rw [hcf]
    gcongr
  have hpd : p_ij net d2 ≤ p_ij net d1 := by
    rw [pval d1, pval d2]
    have harg : -d2 / 22000 ≤ -d1 / (22000:ℚ) :=
      div_le_div_of_nonneg_right (by linarith) (by norm_num)
    have := hmono harg
    nlinarith
  have hTs : T_ij_s net d1 ≤ T_ij_s net d2 := by
    unfold T_ij_s
    gcongr
  have hTf : T_ij_f net d1 ≤ T_ij_f net d2 := by
    unfold T_ij_f
    gcongr
  have hkey : T_ij_s net d1 - T_ij_f net d1 ≤ T_ij_s net d2 - T_ij_f net d2 := by
    unfold T_ij_s T_ij_f
    rw [← max_assoc, ← max_assoc]
    have ha : max net.tau_h (tau_ij net d1) ≤ max net.tau_h (tau_ij net d2) :=
      max_le_max le_rfl htau
    have hb : max (max net.tau_h (tau_ij net d2)) net.tau_d ≤
        max (max net.tau_h (tau_ij net d1)) net.tau_d +
          (max net.tau_h (tau_ij net d2) - max net.tau_h (tau_ij net d1)) := by
      apply max_le
      · linarith [le_max_left (max net.tau_h (tau_ij net d1)) net.tau_d]
      · linarith [le_max_right (max net.tau_h (tau_ij net d1)) net.tau_d]
    linarith
  have hid : ∀ d : ℚ, T_ij net d =
      T_ij_f net d / p_ij net d + (T_ij_s net d - T_ij_f net d) := by
    intro d
    have hp := hppos d
    unfold T_ij
    field_simp
    ring
  have hdiv : T_ij_f net d1 / p_ij net d1 ≤ T_ij_f net d2 / p_ij net d2 :=
    div_le_div₀ (T_ij_f_pos net d2 htp hth).le hTf (hppos d2) hpd
  have hT12 : T_ij net d1 ≤ T_ij net d2 := by
    rw [hid d1, hid d2]
    linarith
  have hT1 : 0 < T_ij net d1 := T_ij_pos net d1 htp hth (hppos d1) (hple1 d1 h1)
  by_cases hcut1 : net.T_ch < tau_ij net d1
  · have hcut2 : net.T_ch < tau_ij net d2 := lt_of_lt_of_le hcut1 htau
    simp only [link_entanglement_rate]
    rw [if_pos hcut2, if_pos hcut1]
  · by_cases hcut2 : net.T_ch < tau_ij net d2
    · simp only [link_entanglement_rate]
      rw [if_pos hcut2, if_neg hcut1]
      positivity
    · simp only [link_entanglement_rate]
      rw [if_neg hcut2, if_neg hcut1]
      exact one_div_le_one_div_of_le hT1 hT12

/-- Witness for C9 with the constant-1 exponential and d1 = 0, d2 = 1. -/
theorem C9_rate_antitone_in_distance_witness :
    link_entanglement_rate (defaultNetwork (fun _ => 1)) 1 ≤
      link_entanglement_rate (defaultNetwork (fun _ => 1)) 0 :=
  C9_rate_antitone_in_distance (fun _ => 1) (fun _ => by norm_num)
    monotone_const (fun _ _ => le_rfl) 0 1 le_rfl (by norm_num)

lemma enum_sound {V : Type} [DecidableEq V] (nodes : List V)
    (dist : V → V → Option ℚ) :
    ∀ (src dst : V) (visited : List V), src ∉ visited →
      ∀ p ∈ enumerate_paths nodes dist src dst visited,
        p.head? = some src ∧ p.getLast? = some dst ∧ p.Nodup ∧
          List.Chain' (fun u v => (dist u v).isSome = true) p ∧
          ∀ x ∈ p, x ∉ visited ∧ (x = src ∨ x ∈ nodes) := by
  intro src dst visited
  induction src, dst, visited using enumerate_paths.induct nodes dist with
  | case1 dst visited =>
    intro hsv p hp
    rw [enumerate_paths.eq_def, if_pos rfl] at hp
    simp only [List.mem_singleton] at hp
    subst hp
    refine ⟨rfl, rfl, by simp, by simp, ?_⟩
    intro x hx
    simp only [List.mem_singleton] at hx
    subst hx
    exact ⟨hsv, Or.inl rfl⟩
  | case2 src dst visited hne IH =>
    intro hsv p hp
    rw [enumerate_paths.eq_def, if_neg hne] at hp
    simp only [List.mem_flatten, List.mem_map] at hp
    obtain ⟨l, ⟨x, hxa, rfl⟩, hpl⟩ := hp
    obtain ⟨sp, hsp, rfl⟩ := List.mem_map.mp hpl
    have hxf := x.2
    simp only [List.mem_filter, Bool.and_eq_true, decide_eq_true_eq] at hxf
    have hxnodes := hxf.1
    have hxvis := hxf.2.1
    have hxedge := hxf.2.2
    have hprops := IH x hxvis sp hsp
    obtain ⟨hhead, hlast, hnd, hch, hmem⟩ := hprops
    obtain ⟨a, tl, rfl⟩ : ∃ a tl, sp = a :: tl := by
      cases sp with
      | nil => simp at hhead
      | cons a tl => exact ⟨a, tl, rfl⟩
    have ha : a = x.1 := by simpa using hhead
    refine ⟨rfl, ?_, ?_, ?_, ?_⟩
    · rw [List.getLast?_cons_cons]
      exact hlast
    · rw [List.nodup_cons]
      refine ⟨?_, hnd⟩
      intro hsrc
      have := (hmem src hsrc).1
      simp at this
    · rw [List.chain'_cons']
      refine ⟨?_, hch⟩
      intro y hy
      simp only [List.head?_cons, Option.mem_def, Option.some_inj] at hy
      subst hy
      rw [ha]
      exact hxedge
    · intro y hy
      rcases List.mem_cons.mp hy with h | h
      · subst h
        exact ⟨hsv, Or.inl rfl⟩
      · have := hmem y h
        refine ⟨fun hv => this.1 (List.mem_cons_of_mem _ hv), ?_⟩
        rcases this.2 with h1 | h1
        · exact Or.inr (h1 ▸ hxnodes)
        · exact Or.inr h1

lemma enum_complete {V : Type} [DecidableEq V] (nodes : List V)
    (dist : V → V → Option ℚ) (dst : V) :
    ∀ (q : List V) (src : V) (visited : List V),
      (src :: q).Nodup →
      List.Chain' (fun u v => (dist u v).isSome = true) (src :: q) →
      (∀ x ∈ src :: q, x ∈ nodes) →
      (∀ x ∈ src :: q, x ∉ visited) →
      (src :: q).getLast? = some dst →
      (src :: q) ∈ enumerate_paths nodes dist src dst visited := by
  intro q
  induction q with
  | nil =>
    intro src visited _ _ _ _ hlast
    have hsd : src = dst := by simpa using hlast
    subst hsd
    rw [enumerate_paths.eq_def, if_pos rfl]
    simp
  | cons n rest IH =>
    intro src visited hnd hch hnodes hvis hlast
    rw [List.getLast?_cons_cons] at hlast
    have hdst_mem : dst ∈ n :: rest := by
      obtain ⟨h, heq⟩ := List.mem_getLast?_eq_getLast hlast
      exact heq ▸ List.getLast_mem h
    have hsrcq : src ∉ n :: rest := (List.nodup_cons.mp hnd).1
    have hne : src ≠ dst := fun h => hsrcq (h ▸ hdst_mem)
    rw [enumerate_paths.eq_def, if_neg hne]
    apply List.mem_flatten.mpr
    have hnfilter : n ∈ nodes.filter fun m =>
        decide (m ∉ src :: visited) && (dist src m).isSome := by
      simp only [List.mem_filter, Bool.and_eq_true, decide_eq_true_eq]
      refine ⟨hnodes n (by simp), ?_, (List.chain'_cons.mp hch).1⟩
      intro hmem
      rcases List.mem_cons.mp hmem with h | h
      · exact hsrcq (h ▸ List.mem_cons_self n rest)
      · exact hvis n (by simp) h
    refine ⟨(enumerate_paths nodes dist n dst (src :: visited)).map
      (fun sp => src :: sp), ?_, ?_⟩
    · exact List.mem_map.mpr ⟨⟨n, hnfilter⟩, List.mem_attach _ _, rfl⟩
    · apply List.mem_map.mpr
      refine ⟨n :: rest, ?_, rfl⟩
      apply IH n (src :: visited)
      · exact (List.nodup_cons.mp hnd).2
      · exact (List.chain'_cons.mp hch).2
      · intro x hx
        exact hnodes x (List.mem_cons_of_mem _ hx)
      · intro x hx hmem
        rcases List.mem_cons.mp hmem with h | h
        · exact hsrcq (h ▸ hx)
        · exact hvis x (List.mem_cons_of_mem _ hx) h
      · exact hlast

lemma enum_nodup {V : Type} [DecidableEq V] (nodes : List V)
    (dist : V → V → Option ℚ) (hn : nodes.Nodup) :
    ∀ (src dst : V) (visited : List V),
      (enumerate_paths nodes dist src dst visited).Nodup := by
  intro src dst visited
  induction src, dst, visited using enumerate_paths.induct nodes dist with
  | case1 dst visited =>
    rw [enumerate_paths.eq_def, if_pos rfl]
    simp
  | case2 src dst visited hne IH =>
    rw [enumerate_paths.eq_def, if_neg hne]
    rw [List.nodup_flatten]
    constructor
    · intro l hl
      obtain ⟨x, hx, rfl⟩ := List.mem_map.mp hl
      apply List.Nodup.map ?_ (IH x)
      intro a b h
      injection h
    · rw [List.pairwise_map]
      have hatt : ((nodes.filter fun n =>
          decide (n ∉ src :: visited) && (dist src n).isSome).attach).Nodup :=
        List.nodup_attach.mpr (hn.filter _)
      apply List.Pairwise.imp ?_ hatt
      intro a b hab p hpa hpb
      obtain ⟨sp1, hsp1, heq1⟩ := List.mem_map.mp hpa
      obtain ⟨sp2, hsp2, heq2⟩ := List.mem_map.mp hpb
      have hav : a.1 ∉ src :: visited := by
        have h := a.2
        simp only [List.mem_filter, Bool.and_eq_true, decide_eq_true_eq] at h
        exact h.2.1
      have hbv : b.1 ∉ src :: visited := by
        have h := b.2
        simp only [List.mem_filter, Bool.and_eq_true, decide_eq_true_eq] at h
        exact h.2.1
      have h1 := (enum_sound nodes dist a.1 dst (src :: visited) hav sp1 hsp1).1
      have h2 := (enum_sound nodes dist b.1 dst (src :: visited) hbv sp2 hsp2).1
      have hsp : sp1 = sp2 := by
        have := heq1.trans heq2.symm
        injection this
      apply hab
      apply Subtype.ext
      rw [hsp] at h1
      rw [h1] at h2
      exact Option.some_injective _ h2

/-- C7: on a duplicate-free node list, every path returned by the
enumeration is simple and uses only real edges; conversely every simple
source-to-destination path through the node set with real edges is
returned; and the returned list contains no duplicate path. -/
theorem C7_enumeration_sound_complete_nodup {V : Type} [DecidableEq V]
    (nodes : List V) (dist : V → V → Option ℚ) (src dst : V)
    (hn : nodes.Nodup) :
    (∀ p ∈ enumerate_paths nodes dist src dst [],
        p.Nodup ∧ List.Chain' (fun u v => (dist u v).isSome = true) p) ∧
      (∀ p : List V, p.head? = some src → p.getLast? = some dst →
        p.Nodup → List.Chain' (fun u v => (dist u v).isSome = true) p →
        (∀ x ∈ p, x ∈ nodes) →
        p ∈ enumerate_paths nodes dist src dst []) ∧
      (enumerate_paths nodes dist src dst []).Nodup := by
  refine ⟨?_, ?_, enum_nodup nodes dist hn src dst []⟩
  · intro p hp
    have h := enum_sound nodes dist src dst [] (by simp) p hp
    exact ⟨h.2.2.1, h.2.2.2.1⟩
  · intro p hhead hlast hnd hch hmem
    obtain ⟨a, q, rfl⟩ : ∃ a q, p = a :: q := by
      cases p with
      | nil => simp at hhead
      | cons a q => exact ⟨a, q, rfl⟩
    have ha : a = src := by simpa using hhead
    subst ha
    exact enum_complete nodes dist dst q a [] hnd hch hmem
      (fun x _ => List.not_mem_nil x) hlast

/-- Witness for C7 on the two-node graph with the example edge v1—v2. -/
theorem C7_enumeration_sound_complete_nodup_witness :
    ([1, 2] : List ℕ).Nodup ∧
      ((∀ p ∈ enumerate_paths [1, 2] exampleDistances 1 2 [],
          p.Nodup ∧
            List.Chain' (fun u v => (exampleDistances u v).isSome = true) p) ∧
        (∀ p : List ℕ, p.head? = some 1 → p.getLast? = some 2 →
          p.Nodup →
          List.Chain' (fun u v => (exampleDistances u v).isSome = true) p →
          (∀ x ∈ p, x ∈ ([1, 2] : List ℕ)) →
          p ∈ enumerate_paths [1, 2] exampleDistances 1 2 []) ∧
        (enumerate_paths [1, 2] exampleDistances 1 2 []).Nodup) :=
  ⟨by decide,
    C7_enumeration_sound_complete_nodup [1, 2] exampleDistances 1 2
      (by decide)⟩

/-- C10: paths only pass through members of the supplied node list; a
neighbor present in the distance graph but absent from the node list is
never visited, so when the source is itself in the node list every node
of every returned path belongs to it. -/
theorem C10_paths_stay_inside_node_set {V : Type} [DecidableEq V]
    (nodes : List V) (dist : V → V → Option ℚ) (src dst : V)
    (hsrc : src ∈ nodes) :
    ∀ p ∈ enumerate_paths nodes dist src dst [], ∀ x ∈ p, x ∈ nodes := by
  intro p hp x hx
  have h := (enum_sound nodes dist src dst [] (by simp) p hp).2.2.2.2 x hx
  rcases h.2 with h1 | h1
  · exact h1 ▸ hsrc
  · exact h1

/-- Witness for C10: source node 1 lies in the node list [1, 2]. -/
theorem C10_paths_stay_inside_node_set_witness :
    (1 : ℕ) ∈ ([1, 2] : List ℕ) ∧
      ∀ p ∈ enumerate_paths [1, 2] exampleDistances 1 2 [],
        ∀ x ∈ p, x ∈ ([1, 2] : List ℕ) :=
  ⟨by decide,
    C10_paths_stay_inside_node_set [1, 2] exampleDistances 1 2 (by decide)⟩

lemma best_loop_none {V : Type} (net : QuantumNetwork)
    (dist : V → V → Option ℚ) (fuel : Nat) (l : List (List V))
    (bp : Option (List V)) (br : ℚ) (hne : l ≠ [])
    (hlen : ∀ p ∈ l, 2 ≤ p.length) :
    best_loop net dist fuel l bp br = none := by
  cases l with
  | nil => exact absurd rfl hne
  | cons p rest =>
    have h := e2e_none_of_two_le net dist fuel p (hlen p (by simp))
    simp [best_loop, h]

lemma enum_empty_dist {V : Type} [DecidableEq V] (nodes : List V)
    (src dst : V) (visited : List V) (hne : src ≠ dst) :
    enumerate_paths nodes (fun _ _ => none) src dst visited = [] := by
  rw [enumerate_paths.eq_def, if_neg hne]
  simp

lemma pairs_example_ne : ∀ pr ∈ pairs exampleNodes, pr.1 ≠ pr.2 := by
  decide

lemma mem_allPaths_example :
    ([1, 2] : List ℕ) ∈ (pairs exampleNodes).flatMap
      (fun pr => enumerate_paths exampleNodes exampleDistances pr.1 pr.2 []) := by
  apply List.mem_flatMap.mpr
  refine ⟨(1, 2), by decide, ?_⟩
  exact enum_complete exampleNodes exampleDistances 2 [2] 1 [] (by decide)
    (by rw [List.chain'_cons']; exact ⟨fun y hy => by simp_all [exampleDistances], List.chain'_singleton 2⟩)
    (by decide) (by decide) (by decide)

lemma allPaths_example_lengths :
    ∀ p ∈ (pairs exampleNodes).flatMap
      (fun pr => enumerate_paths exampleNodes exampleDistances pr.1 pr.2 []),
      2 ≤ p.length := by
  intro p hp
  obtain ⟨pr, hpr, hpe⟩ := List.mem_flatMap.mp hp
  have hne : pr.1 ≠ pr.2 := pairs_example_ne pr hpr
  have h := enum_sound exampleNodes exampleDistances pr.1 pr.2 [] (by simp)
    p hpe
  cases p with
  | nil => simp at h
  | cons a q =>
    cases q with
    | nil =>
      have h1 : a = pr.1 := by simpa using h.1
      have h2 : a = pr.2 := by simpa using h.2.1
      exact absurd (h1 ▸ h2) hne
    | cons b r => simp

/-- C8: the claim says the search returns the best-rate candidate, with
(none, 0) when no candidate has positive rate.  On the example topology
there is at least one candidate path and every candidate has length at
least 2, so the call into `end_to_end_rate` never returns (the base-case
bug of C1/C2) and `find_optimal_path` produces no result at any recursion
depth.  On the same nodes with an empty distance graph the candidate list
is empty and the source does return (None, 0.0), as the claim states for
the zero-edge case. -/
theorem C8_search_diverges_on_example :
    ∀ (fuel : Nat) (expf : ℚ → ℚ),
      find_optimal_path (defaultNetwork expf) exampleNodes exampleDistances
          fuel = none ∧
        find_optimal_path (defaultNetwork expf) exampleNodes
          (fun _ _ => none) fuel = some (none, 0) := by
  intro fuel expf
  constructor
  · apply best_loop_none
    · exact List.ne_nil_of_mem mem_allPaths_example
    · exact allPaths_example_lengths
  · unfold find_optimal_path
    have hall : (pairs exampleNodes).flatMap
        (fun pr => enumerate_paths exampleNodes
          (fun _ _ => (none : Option ℚ)) pr.1 pr.2 []) = [] := by
      apply List.flatMap_eq_nil_iff.mpr
      intro pr hpr
      exact enum_empty_dist exampleNodes pr.1 pr.2 [] (pairs_example_ne pr hpr)
    rw [hall]
    rfl
